import Mathlib

/-!
Verification of the fletcher4 checksum package (`checksummer.go`).

The package maintains a running Fletcher-4 checksum as four unsigned
64-bit words `(a, b, c, d)` and exposes the Go `hash.Hash` contract:
`Write` feeds bytes (4 at a time, little-endian decoded), `Sum` appends
the 32-byte serialization to a buffer, `Reset` zeroes the state,
`Size`/`BlockSize` report constants, and `Sum64x4` returns the raw words.

Machine integers are embedded as `Nat` with explicit reduction modulo
`2 ^ 64`; bytes are `Fin 256`.  A Go panic (raised by `update` on
misaligned input) is embedded as an `Except.error` outcome; since the
panic fires before `Write`'s assignment `*d = update(*d, p)` executes,
the receiver state returned on the error path is the unchanged input
state.
-/

namespace Fletcher4

/-- A byte, as stored in a Go `[]byte` slice. -/
abbrev Byte := Fin 256

/-- 2^64, the modulus of Go `uint64` arithmetic. -/
def W : Nat := 2 ^ 64

/-- `const Size = 32`: the size of a fletcher4 checksum in bytes. -/
def Size : Nat := 32

/-- `const BlockSize = 4`: the word size used by the implementation. -/
def BlockSize : Nat := 4

/-- `type digest [4]uint64`: the partial evaluation of a fletcher4
checksum, four unsigned 64-bit words. -/
structure digest where
  a : Nat
  b : Nat
  c : Nat
  d : Nat
deriving DecidableEq, Repr

/-- `func (d *digest) Reset()`: sets the state to `[4]uint64{0,0,0,0}`. -/
def digest.Reset (_ : digest) : digest := ⟨0, 0, 0, 0⟩

/-- `func New() Fletcher64x4`: allocates a zero digest and calls `Reset`,
yielding the all-zero state. -/
def New : digest := digest.Reset ⟨0, 0, 0, 0⟩

/-- `func (d *digest) Size() int { return Size }` -/
def digest.Size (_ : digest) : Nat := Fletcher4.Size

/-- `func (d *digest) BlockSize() int { return BlockSize }` -/
def digest.BlockSize (_ : digest) : Nat := Fletcher4.BlockSize

/-- `func (d *digest) Sum64x4() [4]uint64`: returns the current words. -/
def digest.Sum64x4 (d : digest) : Nat × Nat × Nat × Nat := (d.a, d.b, d.c, d.d)

/-- `binary.LittleEndian.Uint32(p[i:i+4])` from Go's standard library:
decodes four bytes as an unsigned 32-bit little-endian integer. -/
def littleEndianUint32 (b0 b1 b2 b3 : Byte) : Nat :=
  b0.val + 2 ^ 8 * b1.val + 2 ^ 16 * b2.val + 2 ^ 24 * b3.val

/-- The `for` loop of `update`: consumes the input four bytes at a time,
decoding each word little-endian and cascading it through
`a += w; b += a; c += b; d += c` in `uint64` (mod `2^64`) arithmetic.
The loop body only runs while at least 4 bytes remain, stepping by 4. -/
def updateLoop : digest → List Byte → digest
  | dig, b0 :: b1 :: b2 :: b3 :: rest =>
      let w := littleEndianUint32 b0 b1 b2 b3
      let a := (dig.a + w) % W
      let b := (dig.b + a) % W
      let c := (dig.c + b) % W
      let d := (dig.d + c) % W
      updateLoop ⟨a, b, c, d⟩ rest
  | dig, _ => dig

/-- `func update(dig digest, p []byte) digest`: panics (embedded as
`Except.error`) when `len(p) % BlockSize != 0`, with the message built by
`fmt.Sprintf`; otherwise runs the accumulation loop. -/
def update (dig : digest) (p : List Byte) : Except String digest :=
  if p.length % BlockSize ≠ 0 then
    Except.error ("Write to Fletcher64x4 checksummer must be a multiple of "
      ++ toString BlockSize ++ " bytes.")
  else
    Except.ok (updateLoop dig p)

/-- `func (d *digest) Write(p []byte) (n int, err error)`: runs
`*d = update(*d, p); return len(p), nil`.  The result pairs the receiver
state after the call with the outcome: on success the new state and
`(len(p), nil)`; on panic the receiver is never assigned, so the state
component is the unchanged input state. -/
def digest.Write (d : digest) (p : List Byte) : digest × Except String Nat :=
  match update d p with
  | Except.error e => (d, Except.error e)
  | Except.ok d2 => (d2, Except.ok p.length)

/-- `binary.LittleEndian.PutUint64` from Go's standard library: the
8-byte little-endian serialization of a `uint64` value. -/
def putUint64LE (v : Nat) : List Byte :=
  [⟨v % 256, Nat.mod_lt _ (by decide)⟩,
   ⟨v / 2 ^ 8 % 256, Nat.mod_lt _ (by decide)⟩,
   ⟨v / 2 ^ 16 % 256, Nat.mod_lt _ (by decide)⟩,
   ⟨v / 2 ^ 24 % 256, Nat.mod_lt _ (by decide)⟩,
   ⟨v / 2 ^ 32 % 256, Nat.mod_lt _ (by decide)⟩,
   ⟨v / 2 ^ 40 % 256, Nat.mod_lt _ (by decide)⟩,
   ⟨v / 2 ^ 48 % 256, Nat.mod_lt _ (by decide)⟩,
   ⟨v / 2 ^ 56 % 256, Nat.mod_lt _ (by decide)⟩]

/-- `func (d *digest) Sum(in []byte) []byte`: appends the little-endian
serializations of `d[0], d[1], d[2], d[3]` to `in`, in that order. -/
def digest.Sum (d : digest) (inp : List Byte) : List Byte :=
  ((inp ++ putUint64LE d.a ++ putUint64LE d.b) ++ putUint64LE d.c) ++ putUint64LE d.d

/-- A sequence of `Write` calls, executed in order; a panic (error) stops
the sequence with the state reached so far. -/
def writeSeq : digest → List (List Byte) → digest × Except String Unit
  | d, [] => (d, Except.ok ())
  | d, p :: rest =>
      match digest.Write d p with
      | (d2, Except.ok _) => writeSeq d2 rest
      | (d2, Except.error e) => (d2, Except.error e)

/-- Modelled from the spec: one recurrence step for a decoded word `w`,
`a := a + w; b := b + a; c := c + b; d := d + c`, each modulo `2^64`. -/
def specStep (st : digest) (w : Nat) : digest :=
  let a := (st.a + w) % W
  let b := (st.b + a) % W
  let c := (st.c + b) % W
  let d := (st.d + c) % W
  ⟨a, b, c, d⟩

/-- Modelled from the spec: the checksum as a pure fold of the recurrence
over the word sequence. -/
def specUpdate (st : digest) (ws : List Nat) : digest := ws.foldl specStep st

/-- Modelled from the spec: the input split into consecutive
non-overlapping 4-byte words, each decoded as an unsigned 32-bit
little-endian integer. -/
def toWords : List Byte → List Nat
  | b0 :: b1 :: b2 :: b3 :: rest => littleEndianUint32 b0 b1 b2 b3 :: toWords rest
  | _ => []

/-! ## Helper lemmas -/

/-- The source loop computes exactly the spec's fold over the decoded
word sequence (both drop a trailing fragment shorter than one word, so
no alignment hypothesis is needed). -/
theorem updateLoop_eq_specUpdate :
    ∀ (p : List Byte) (dig : digest), updateLoop dig p = specUpdate dig (toWords p)
  | [], _ => rfl
  | [_], _ => rfl
  | [_, _], _ => rfl
  | [_, _, _], _ => rfl
  | b0 :: b1 :: b2 :: b3 :: rest, dig => by
      rw [updateLoop, toWords, specUpdate, List.foldl_cons]
      exact updateLoop_eq_specUpdate rest (specStep dig (littleEndianUint32 b0 b1 b2 b3))

/-- Splitting into words commutes with concatenation when the first part
is word-aligned. -/
theorem toWords_append :
    ∀ (p q : List Byte), p.length % 4 = 0 → toWords (p ++ q) = toWords p ++ toWords q
  | [], _, _ => by simp [toWords]
  | [_], _, h => by simp at h
  | [_, _], _, h => by simp at h
  | [_, _, _], _, h => by simp at h
  | b0 :: b1 :: b2 :: b3 :: rest, q, h => by
      have hrest : rest.length % 4 = 0 := by
        simp only [List.length_cons] at h
        omega
      simp only [List.cons_append, toWords, List.cons.injEq, true_and]
      exact toWords_append rest q hrest

/-- Running the loop on a concatenation equals running it on the parts
in sequence, provided the first part is word-aligned. -/
theorem updateLoop_append (dig : digest) (p q : List Byte) (h : p.length % 4 = 0) :
    updateLoop dig (p ++ q) = updateLoop (updateLoop dig p) q := by
  rw [updateLoop_eq_specUpdate, updateLoop_eq_specUpdate, updateLoop_eq_specUpdate,
    toWords_append p q h, specUpdate, specUpdate, specUpdate, List.foldl_append]

/-- The concatenation of word-aligned chunks is word-aligned. -/
theorem join_length_mod :
    ∀ (chunks : List (List Byte)), (∀ p ∈ chunks, p.length % 4 = 0) →
      chunks.flatten.length % 4 = 0
  | [], _ => rfl
  | p :: rest, h => by
      have hp : p.length % 4 = 0 := h p (List.mem_cons_self p rest)
      have hrest := join_length_mod rest (fun q hq => h q (List.mem_cons_of_mem p hq))
      simp only [List.flatten_cons, List.length_append]
      omega

/-- A sequence of word-aligned `Write` calls succeeds and leaves the
state the loop would produce on the concatenated input. -/
theorem writeSeq_valid :
    ∀ (chunks : List (List Byte)) (dig : digest), (∀ p ∈ chunks, p.length % 4 = 0) →
      writeSeq dig chunks = (updateLoop dig chunks.flatten, Except.ok ())
  | [], dig, _ => rfl
  | p :: rest, dig, h => by
      have hp : p.length % 4 = 0 := h p (List.mem_cons_self p rest)
      have hrest := writeSeq_valid rest (updateLoop dig p)
        (fun q hq => h q (List.mem_cons_of_mem p hq))
      have hup : update dig p = Except.ok (updateLoop dig p) := by
        rw [update, if_neg]
        simp [BlockSize, hp]
      have hw : digest.Write dig p = (updateLoop dig p, Except.ok p.length) := by
        rw [digest.Write, hup]
      simp only [writeSeq, hw, List.flatten_cons]
      rw [hrest, updateLoop_append dig p rest.flatten hp]

/-- A decoded word fits in 32 bits. -/
theorem littleEndianUint32_lt (b0 b1 b2 b3 : Byte) :
    littleEndianUint32 b0 b1 b2 b3 < 2 ^ 32 := by
  have h0 := b0.isLt
  have h1 := b1.isLt
  have h2 := b2.isLt
  have h3 := b3.isLt
  simp only [littleEndianUint32]
  omega

/-- `update` succeeds on word-aligned input, running the loop. -/
theorem update_ok (dig : digest) (p : List Byte) (h : p.length % 4 = 0) :
    update dig p = Except.ok (updateLoop dig p) := by
  rw [update, if_neg]
  simp [BlockSize, h]

/-! ## Claims -/

/-- C1: For every byte sequence whose length is a multiple of 4,
`Write` succeeds returning the input length, and the new state is the
spec's fold: the input is split into consecutive non-overlapping 4-byte
words, each decoded as an unsigned 32-bit little-endian integer, and for
each word `w` the state is updated `a += w; b += a; c += b; d += c` in
this order, modulo `2^64` with wraparound. -/
theorem c1_write_processes_le_words (dig : digest) (p : List Byte)
    (h : p.length % 4 = 0) :
    digest.Write dig p = (specUpdate dig (toWords p), Except.ok p.length) := by
  simp only [digest.Write, update_ok dig p h, updateLoop_eq_specUpdate]

/-- Witness for C1 at a concrete 8-byte input. -/
theorem c1_witness :
    digest.Write New [1, 2, 3, 4, 5, 6, 7, 8] =
      (specUpdate New (toWords [1, 2, 3, 4, 5, 6, 7, 8]), Except.ok 8) :=
  c1_write_processes_le_words New [1, 2, 3, 4, 5, 6, 7, 8] (by decide)

/-- C2: Feeding a byte sequence through any sequence of `Write` calls of
word-aligned chunks yields the same final `(a,b,c,d)` state as one
`Write` of the concatenation: the checksum is a pure fold, independent
of chunking. -/
theorem c2_split_write_equivalence (dig : digest) (chunks : List (List Byte))
    (h : ∀ p ∈ chunks, p.length % 4 = 0) :
    (writeSeq dig chunks).1 = (digest.Write dig chunks.flatten).1 := by
  have hflat := join_length_mod chunks h
  rw [writeSeq_valid chunks dig h]
  simp only [digest.Write, update_ok dig chunks.flatten hflat]

/-- Witness for C2: two 4-byte writes versus one 8-byte write. -/
theorem c2_witness :
    (writeSeq New [[1, 2, 3, 4], [5, 6, 7, 8]]).1 =
      (digest.Write New ([[1, 2, 3, 4], [5, 6, 7, 8]] : List (List Byte)).flatten).1 :=
  c2_split_write_equivalence New [[1, 2, 3, 4], [5, 6, 7, 8]] (by decide)

/-- C3: `Write` faults (the panic raised inside `update`, embedded as the
error outcome) exactly when the input length is not a multiple of 4, with
the message naming the required 4-byte block size; on every word-aligned
input it succeeds, returning the full input length and no error. -/
theorem c3_write_error_iff_misaligned (dig : digest) (p : List Byte) :
    (p.length % 4 ≠ 0 →
      (digest.Write dig p).2 = Except.error
        "Write to Fletcher64x4 checksummer must be a multiple of 4 bytes.")
    ∧ (p.length % 4 = 0 →
      digest.Write dig p = (updateLoop dig p, Except.ok p.length)) := by
  constructor
  · intro h
    have hup : update dig p = Except.error
        "Write to Fletcher64x4 checksummer must be a multiple of 4 bytes." := by
      rw [update, if_pos (by simpa [BlockSize] using h)]
      rfl
    simp [digest.Write, hup]
  · intro h
    simp only [digest.Write, update_ok dig p h]

/-- Witness for C3: a 1-byte write faults with the message; a 4-byte
write succeeds with count 4. -/
theorem c3_witness :
    (digest.Write New [1]).2 = Except.error
      "Write to Fletcher64x4 checksummer must be a multiple of 4 bytes."
    ∧ digest.Write New [1, 2, 3, 4] = (updateLoop New [1, 2, 3, 4], Except.ok 4) :=
  ⟨(c3_write_error_iff_misaligned New [1]).1 (by decide),
   (c3_write_error_iff_misaligned New [1, 2, 3, 4]).2 (by decide)⟩

/-- C4: On misaligned input the faulting `Write` leaves the four-word
state exactly as it was: the panic fires before the receiver assignment,
so no partial update occurs. -/
theorem c4_failed_write_preserves_state (dig : digest) (p : List Byte)
    (h : p.length % 4 ≠ 0) : (digest.Write dig p).1 = dig := by
  simp [digest.Write, update, BlockSize, h]

/-- Witness for C4 at a concrete 3-byte input and nonzero state. -/
theorem c4_witness : (digest.Write ⟨5, 6, 7, 8⟩ [1, 2, 3]).1 = ⟨5, 6, 7, 8⟩ :=
  c4_failed_write_preserves_state ⟨5, 6, 7, 8⟩ [1, 2, 3] (by decide)

/-- C5: `Sum` returns the input buffer with exactly 32 bytes appended,
the 8-byte little-endian serializations of `a, b, c, d` in that order,
never touching the existing buffer contents (the accumulator itself is
passed by value and unchanged); calling `Sum` twice on the growing
buffer therefore appends the same 32-byte digest twice. -/
theorem c5_sum_appends_digest (dig : digest) (inp : List Byte) :
    digest.Sum dig inp =
      inp ++ (putUint64LE dig.a ++ putUint64LE dig.b
        ++ putUint64LE dig.c ++ putUint64LE dig.d)
    ∧ (putUint64LE dig.a ++ putUint64LE dig.b
        ++ putUint64LE dig.c ++ putUint64LE dig.d).length = 32
    ∧ digest.Sum dig (digest.Sum dig inp) =
      inp ++ (putUint64LE dig.a ++ putUint64LE dig.b
        ++ putUint64LE dig.c ++ putUint64LE dig.d)
          ++ (putUint64LE dig.a ++ putUint64LE dig.b
        ++ putUint64LE dig.c ++ putUint64LE dig.d) := by
  refine ⟨?_, ?_, ?_⟩ <;> simp [digest.Sum, putUint64LE]

/-- C6: Writing one 4-byte word of little-endian value `V` to a fresh
accumulator yields `(V, V, V, V)`; in particular bytes `[1,2,3,4]` give
all four words equal to `0x04030201`. -/
theorem c6_single_block_fill (b0 b1 b2 b3 : Byte) :
    (digest.Write New [b0, b1, b2, b3]).1 =
      ⟨littleEndianUint32 b0 b1 b2 b3, littleEndianUint32 b0 b1 b2 b3,
       littleEndianUint32 b0 b1 b2 b3, littleEndianUint32 b0 b1 b2 b3⟩
    ∧ (digest.Write New [1, 2, 3, 4]).1 =
      ⟨0x04030201, 0x04030201, 0x04030201, 0x04030201⟩ := by
  constructor
  · have hV := littleEndianUint32_lt b0 b1 b2 b3
    have hmod : littleEndianUint32 b0 b1 b2 b3 % W = littleEndianUint32 b0 b1 b2 b3 :=
      Nat.mod_eq_of_lt (hV.trans (by norm_num [W]))
    have hup := update_ok New [b0, b1, b2, b3] (by simp)
    simp only [digest.Write, hup]
    simp [updateLoop, New, digest.Reset, hmod]
  · decide

/-- C7: After any sequence of writes from any state, `Reset` sets the
state to `(0,0,0,0)`, identical to a fresh accumulator, and a subsequent
`Sum64x4` returns `(0,0,0,0)`. -/
theorem c7_reset_zeroes (dig : digest) (chunks : List (List Byte)) :
    digest.Reset (writeSeq dig chunks).1 = New
    ∧ digest.Sum64x4 (digest.Reset (writeSeq dig chunks).1) = (0, 0, 0, 0) :=
  ⟨rfl, rfl⟩

/-- C8: Two fresh accumulators fed the identical byte sequence under any
valid chunkings end in identical states, and `Sum` onto equal buffers
yields identical digest bytes. -/
theorem c8_determinism (chunks1 chunks2 : List (List Byte)) (buf : List Byte)
    (h1 : ∀ p ∈ chunks1, p.length % 4 = 0) (h2 : ∀ p ∈ chunks2, p.length % 4 = 0)
    (heq : chunks1.flatten = chunks2.flatten) :
    (writeSeq New chunks1).1 = (writeSeq New chunks2).1
    ∧ digest.Sum (writeSeq New chunks1).1 buf
      = digest.Sum (writeSeq New chunks2).1 buf := by
  have hst : (writeSeq New chunks1).1 = (writeSeq New chunks2).1 := by
    rw [writeSeq_valid chunks1 New h1, writeSeq_valid chunks2 New h2]
    simp [heq]
  exact ⟨hst, by rw [hst]⟩

/-- Witness for C8: one 8-byte chunk versus two 4-byte chunks. -/
theorem c8_witness :
    (writeSeq New [[1, 2, 3, 4, 5, 6, 7, 8]]).1 =
      (writeSeq New [[1, 2, 3, 4], [5, 6, 7, 8]]).1
    ∧ digest.Sum (writeSeq New [[1, 2, 3, 4, 5, 6, 7, 8]]).1 []
      = digest.Sum (writeSeq New [[1, 2, 3, 4], [5, 6, 7, 8]]).1 [] :=
  c8_determinism [[1, 2, 3, 4, 5, 6, 7, 8]] [[1, 2, 3, 4], [5, 6, 7, 8]] []
    (by decide) (by decide) (by decide)

/-- C9: `Size()` returns the constant 32 and `BlockSize()` returns the
constant 4, for every accumulator in every state. -/
theorem c9_size_blocksize (dig : digest) :
    digest.Size dig = 32 ∧ digest.BlockSize dig = 4 :=
  ⟨rfl, rfl⟩

/-- C10: A zero-length `Write` is a valid no-op: count 0, no error, state
unchanged. -/
theorem c10_empty_write_noop (dig : digest) :
    digest.Write dig [] = (dig, Except.ok 0) :=
  rfl

end Fletcher4
